import Mathlib

/-!
Shallow embedding of the DistilBERT embedding layer
(`src/distilbert/embeddings.rs`) and of the question-answering pipeline
contract exercised by `examples/question_answering.rs` from the
`rust-bert` repository, together with proofs of the specified properties.

Tensors are modelled as (lists of) lists of real numbers; the `f64`
arithmetic of the source is modelled by exact real arithmetic.
-/

namespace RustBert

/-- The model configuration record (`DistilBertConfig`).  The struct itself
lives in `distilbert/distilbert.rs`, outside the sources at hand; the fields
below are the ones read by `embeddings.rs`, plus the normalization epsilon.
The `eps` field is modelled from the spec: the configuration carries
"a dropout probability, and a normalization epsilon". -/
structure DistilBertConfig where
  vocab_size : Nat
  dim : Nat
  max_position_embeddings : Nat
  sinusoidal_pos_embds : Bool
  dropout : ℝ
  eps : ℝ

/-- An embedding table (the `nn::Embedding` of `tch`): a weight matrix `ws`
mapping an integer index to a row vector, plus the configured padding
index. -/
structure Embedding where
  ws : List (List ℝ)
  padding_idx : Int

/-- Row lookup in an embedding table: index `id` selects row `id` of the
weight matrix.  An out-of-range index is undefined behaviour in the source
(callers guarantee validity); the model returns `[]` there. -/
def Embedding.lookup (e : Embedding) (id : Nat) : List ℝ :=
  e.ws.getD id []

/-- Source function `create_sinusoidal_embeddings` (embeddings.rs, lines 20-44): for each
`pos` in `0..max_position_embeddings` and each column `j` in `0..dim`,
push `sin(pos / 10000^((2*(j/2))/dim))` for even `j` and
`cos(pos / 10000^((2*(j/2))/dim))` for odd `j` (`j / 2` is integer
division, as in the source), stack the rows, and wrap the matrix as an
embedding table with padding index 0. -/
noncomputable def create_sinusoidal_embeddings (config : DistilBertConfig) : Embedding :=
  let sinusoidal_embedding : List (List ℝ) :=
    (List.range config.max_position_embeddings).map (fun (pos : Nat) =>
      (List.range config.dim).map (fun (j : Nat) =>
        if j % 2 = 0 then
          Real.sin ((pos : ℝ) / (10000 : ℝ) ^ (((2 * (j / 2) : Nat) : ℝ) / (config.dim : ℝ)))
        else
          Real.cos ((pos : ℝ) / (10000 : ℝ) ^ (((2 * (j / 2) : Nat) : ℝ) / (config.dim : ℝ)))))
  { ws := sinusoidal_embedding, padding_idx := 0 }

/-- A concrete configuration used to instantiate universally quantified
theorems at specific inputs. -/
noncomputable def cfg2 : DistilBertConfig :=
  { vocab_size := 2, dim := 2, max_position_embeddings := 2,
    sinusoidal_pos_embds := true, dropout := 0, eps := 1e-12 }

/-- Layer normalization module (the `nn::LayerNorm` of `tch`): a weight vector,
a bias vector and the stability epsilon. -/
structure LayerNorm where
  weight : List ℝ
  bias : List ℝ
  eps : ℝ

/-- Modelled from the spec: the application of layer normalization (the
`tch` kernel invoked by `embeddings.apply(&self.layer_norm)` is not among
the sources) — "Apply layer normalization over the embedding dimension
with a small numerical-stability epsilon". -/
noncomputable def LayerNorm.apply (self : LayerNorm) (v : List ℝ) : List ℝ :=
  let n : Nat := v.length
  let mean : ℝ := v.sum / (n : ℝ)
  let variance : ℝ := (v.map (fun x => (x - mean) ^ 2)).sum / (n : ℝ)
  (List.range n).map (fun (i : Nat) =>
    (v.getD i 0 - mean) / Real.sqrt (variance + self.eps) * self.weight.getD i 1
      + self.bias.getD i 0)

/-- The dropout module (`common/dropout.rs`, not among the sources): it
records the configured drop probability. -/
structure Dropout where
  p : ℝ

/-- Modelled from the spec: the forward pass of `common/dropout.rs` (not
among the sources) — "during training/stochastic mode, independently zero
each element with the configured probability and rescale surviving
elements to preserve expected magnitude; during inference mode this step
is the identity".  The stochastic choice is made explicit as a boolean
keep-mask `mask`; a kept element is rescaled by `1 / (1 - p)`. -/
noncomputable def Dropout.apply_t (self : Dropout) (mask : Nat → Bool) (train : Bool)
    (v : List ℝ) : List ℝ :=
  match train with
  | true => v.mapIdx (fun (i : Nat) (x : ℝ) => if mask i then x / (1 - self.p) else 0)
  | false => v

/-- Modelled from the spec: the variable store holding the tensors the
weight loader produced (the `nn::VarStore` / `nn::Path` of `tch`, not among the
sources) — "consumes file paths; produces the Configuration record and
tensors matching the shapes in §3".  Each field is the tensor registered
under the corresponding path in `DistilBertEmbedding::new`. -/
structure VarStore where
  word_embeddings : List (List ℝ)
  position_embeddings : List (List ℝ)
  layer_norm_weight : List ℝ
  layer_norm_bias : List ℝ

/-- The embedding module (`DistilBertEmbedding`, embeddings.rs lines
47-53). -/
structure DistilBertEmbedding where
  word_embeddings : Embedding
  position_embeddings : Embedding
  layer_norm : LayerNorm
  dropout : Dropout

/-- Constructor `DistilBertEmbedding::new` (embeddings.rs, lines 56-75): the word
table is a learned embedding loaded from the store with padding index 0;
the position table is the learned `position_embeddings` tensor when
`sinusoidal_pos_embds` is `false` and the sinusoidal table when it is
`true`; the layer norm is built with `eps = 1e-12`; the dropout module is
built from the configured probability. -/
noncomputable def DistilBertEmbedding.new (p : VarStore) (config : DistilBertConfig) :
    DistilBertEmbedding :=
  let word_embeddings : Embedding := { ws := p.word_embeddings, padding_idx := 0 }
  let position_embeddings : Embedding :=
    match config.sinusoidal_pos_embds with
    | false => { ws := p.position_embeddings, padding_idx := 0 }
    | true => create_sinusoidal_embeddings config
  let layer_norm : LayerNorm :=
    { weight := p.layer_norm_weight, bias := p.layer_norm_bias, eps := 1e-12 }
  let dropout : Dropout := { p := config.dropout }
  { word_embeddings := word_embeddings, position_embeddings := position_embeddings,
    layer_norm := layer_norm, dropout := dropout }

/-- Accessor `DistilBertEmbedding::_get_word_embeddings` (embeddings.rs, lines
77-79). -/
def DistilBertEmbedding._get_word_embeddings (self : DistilBertEmbedding) : Embedding :=
  self.word_embeddings

/-- Setter `DistilBertEmbedding::_set_word_embeddings` (embeddings.rs, lines
81-83): replace the word-embedding table; the `&mut self` method is
modelled as returning the updated module. -/
def DistilBertEmbedding._set_word_embeddings (self : DistilBertEmbedding)
    (new_embeddings : Embedding) : DistilBertEmbedding :=
  { self with word_embeddings := new_embeddings }

/-- Model of `Tensor::arange(n)`: the integer sequence `0, 1, ..., n-1`. -/
def arange (n : Nat) : List Nat := List.range n

/-- Model of `row.unsqueeze(0).expand_as(input)` for a 2-D `input`: the row
replicated once per batch row. -/
def expandAs (row : List Nat) (input : List (List Nat)) : List (List Nat) :=
  input.map (fun _ => row)

/-- The position-id matrix of `DistilBertEmbedding::forward_t`
(embeddings.rs, lines 88-90): `seq_length` is the last entry of the input
shape (the common row length of the rectangular token-id matrix), and the
position ids are `arange(seq_length)` expanded across the batch. -/
def positionIds (input : List (List Nat)) : List (List Nat) :=
  let seq_length : Nat := (input.getLastD []).length
  expandAs (arange seq_length) input

/-- Method `DistilBertEmbedding::forward_t` (embeddings.rs, lines 87-100): word
lookup of the token ids, position lookup of the position ids, elementwise
sum, layer norm over the embedding dimension, dropout.  The dropout
keep-mask is indexed by batch row, sequence position and coordinate. -/
noncomputable def DistilBertEmbedding.forward_t (self : DistilBertEmbedding)
    (input : List (List Nat)) (train : Bool) (mask : Nat → Nat → Nat → Bool) :
    List (List (List ℝ)) :=
  let position_ids : List (List Nat) := positionIds input
  let word_embed : List (List (List ℝ)) :=
    input.map (fun (row : List Nat) => row.map self.word_embeddings.lookup)
  let position_embed : List (List (List ℝ)) :=
    position_ids.map (fun (row : List Nat) => row.map self.position_embeddings.lookup)
  let embeddings : List (List (List ℝ)) :=
    List.zipWith (fun wrow prow => List.zipWith (fun w p => List.zipWith (· + ·) w p) wrow prow)
      word_embed position_embed
  let embeddings : List (List (List ℝ)) :=
    embeddings.map (fun (row : List (List ℝ)) => row.map self.layer_norm.apply)
  embeddings.mapIdx (fun (b : Nat) (row : List (List ℝ)) =>
    row.mapIdx (fun (t : Nat) (v : List ℝ) => self.dropout.apply_t (mask b t) train v))

/-- A question/context pair (`QaInput`, pipelines module). -/
structure QaInput where
  question : String
  context : String

/-- A decoded answer (`Answer`, pipelines module): score, start and end
offsets within the context, and the answer text. -/
structure Answer where
  score : ℝ
  start : Nat
  answer_end : Nat
  answer : String

/-- Modelled from the spec: `QuestionAnsweringModel::predict` (pipelines
module, not among the sources) — "For each input, the question and context
are jointly tokenized ... the top_k highest-scoring valid spans are
selected per input, decoded back to text offsets, and returned"; the whole
per-input computation (tokenizer, encoder, head and span decoding) is
abstracted as `answer_fn`, applied to each input with the given `top_k`
and `max_answer_length`, and the per-input answer lists are collected in
input order. -/
def predict (answer_fn : QaInput → Nat → Nat → List Answer)
    (inputs : List QaInput) (top_k : Nat) (max_answer_length : Nat) :
    List (List Answer) :=
  inputs.map (fun input => answer_fn input top_k max_answer_length)

/-- A degenerate configuration with embedding dimension 0. -/
noncomputable def cfgD0 : DistilBertConfig :=
  { vocab_size := 1, dim := 0, max_position_embeddings := 1,
    sinusoidal_pos_embds := true, dropout := 0, eps := 1e-12 }

/-- A configuration whose normalization epsilon is 1 (not the default). -/
noncomputable def cfgEps1 : DistilBertConfig :=
  { vocab_size := 2, dim := 2, max_position_embeddings := 2,
    sinusoidal_pos_embds := false, dropout := 0, eps := 1 }

/-- A concrete 2-dimensional variable store. -/
noncomputable def store0 : VarStore :=
  { word_embeddings := [[1, 0], [0, 1]]
  , position_embeddings := [[0, 0], [1, 1]]
  , layer_norm_weight := [1, 1]
  , layer_norm_bias := [0, 0] }

/-- A concrete embedding module with vocabulary 2, two positions and
embedding dimension 2. -/
noncomputable def m0 : DistilBertEmbedding :=
  { word_embeddings := { ws := [[1, 0], [0, 1]], padding_idx := 0 }
  , position_embeddings := { ws := [[0, 0], [1, 1]], padding_idx := 0 }
  , layer_norm := { weight := [1, 1], bias := [0, 0], eps := 1e-12 }
  , dropout := { p := 0 } }

/-- The two question/context pairs of `examples/question_answering.rs`. -/
def amy_inputs : List QaInput :=
  [{ question := "Where does Amy live ?", context := "Amy lives in Amsterdam" },
   { question := "Where does Eric live",
     context := "While Amy lives in Amsterdam, Eric is in The Hague." }]

/-- A concrete per-input answering function: it returns each given
context as the single answer. -/
noncomputable def context_answer : QaInput → Nat → Nat → List Answer :=
  fun q _ _ => [{ score := 1, start := 0, answer_end := 0, answer := q.context }]

/-- Indexing a list built by mapping over `List.range`. -/
theorem getD_map_range {α : Type _} (d : α) (n i : Nat) (f : Nat → α) (h : i < n) :
    ((List.range n).map f).getD i d = f i := by
  have hl : i < ((List.range n).map f).length := by simpa using h
  rw [List.getD_eq_getElem _ _ hl, List.getElem_map, List.getElem_range]

/-- C1: the sinusoidal table holds `sin(pos / 10000^(2*floor(j/2)/D))` at
even columns and `cos(pos / 10000^(2*floor(j/2)/D))` at odd columns, for
every in-range row `pos` and column `j`. -/
theorem sinusoidal_entry (config : DistilBertConfig) (pos j : Nat)
    (hpos : pos < config.max_position_embeddings) (hj : j < config.dim) :
    ((create_sinusoidal_embeddings config).ws.getD pos []).getD j 0 =
      (if j % 2 = 0 then
        Real.sin ((pos : ℝ) / (10000 : ℝ) ^ (((2 * (j / 2) : Nat) : ℝ) / (config.dim : ℝ)))
      else
        Real.cos ((pos : ℝ) / (10000 : ℝ) ^ (((2 * (j / 2) : Nat) : ℝ) / (config.dim : ℝ)))) := by
  simp only [create_sinusoidal_embeddings]
  rw [getD_map_range _ _ _ _ hpos, getD_map_range _ _ _ _ hj]

/-- Instance of `sinusoidal_entry` at row 1, column 1 of a 2×2 table. -/
theorem sinusoidal_entry_witness :
    ((create_sinusoidal_embeddings cfg2).ws.getD 1 []).getD 1 0 =
      Real.cos ((1 : ℝ) / (10000 : ℝ) ^ (((2 * (1 / 2 : Nat) : Nat) : ℝ) / ((2 : Nat) : ℝ))) := by
  have h := sinusoidal_entry cfg2 1 1 (by norm_num [cfg2]) (by norm_num [cfg2])
  simpa [cfg2] using h

/-- C8: for positive (P, D) the sinusoidal table has P rows of width D,
depends on the configuration only through `max_position_embeddings` and
`dim`, and is wrapped with padding index 0. -/
theorem sinusoidal_shape_pure (config : DistilBertConfig)
    (_hP : 0 < config.max_position_embeddings) (_hD : 0 < config.dim) :
    ((create_sinusoidal_embeddings config).ws.length = config.max_position_embeddings
      ∧ ∀ row ∈ (create_sinusoidal_embeddings config).ws, row.length = config.dim)
    ∧ (∀ config2 : DistilBertConfig,
        config2.max_position_embeddings = config.max_position_embeddings →
        config2.dim = config.dim →
        create_sinusoidal_embeddings config2 = create_sinusoidal_embeddings config)
    ∧ (create_sinusoidal_embeddings config).padding_idx = 0 := by
  refine ⟨⟨by simp [create_sinusoidal_embeddings], ?_⟩, ?_, rfl⟩
  · intro row hrow
    simp only [create_sinusoidal_embeddings, List.mem_map, List.mem_range] at hrow
    obtain ⟨pos, hpos, rfl⟩ := hrow
    simp
  · intro config2 hP2 hD2
    simp [create_sinusoidal_embeddings, hP2, hD2]

/-- Instance of `sinusoidal_shape_pure` on a 2×2 configuration. -/
theorem sinusoidal_shape_pure_witness :
    (create_sinusoidal_embeddings cfg2).ws.length = cfg2.max_position_embeddings :=
  (sinusoidal_shape_pure cfg2 (by norm_num [cfg2]) (by norm_num [cfg2])).1.1

/-- C9: a degenerate configuration (no positions, or dimension 0) yields
an empty sinusoidal table: the total entry count is 0 and every row is
empty. -/
theorem sinusoidal_degenerate_empty (config : DistilBertConfig)
    (h : config.max_position_embeddings = 0 ∨ config.dim = 0) :
    ((create_sinusoidal_embeddings config).ws.map List.length).sum = 0
    ∧ ∀ row ∈ (create_sinusoidal_embeddings config).ws, row = [] := by
  rcases h with h | h
  · simp [create_sinusoidal_embeddings, h]
  · constructor
    · apply List.sum_eq_zero
      intro x hx
      simp only [create_sinusoidal_embeddings, List.map_map, List.mem_map,
        List.mem_range] at hx
      obtain ⟨pos, hpos, rfl⟩ := hx
      simp [h]
    · intro row hrow
      simp only [create_sinusoidal_embeddings, List.mem_map, List.mem_range] at hrow
      obtain ⟨pos, hpos, rfl⟩ := hrow
      simp [h]

/-- Instance of `sinusoidal_degenerate_empty` at dimension 0 with one
position. -/
theorem sinusoidal_degenerate_empty_witness :
    ((create_sinusoidal_embeddings cfgD0).ws.map List.length).sum = 0 :=
  (sinusoidal_degenerate_empty cfgD0 (Or.inr (by norm_num [cfgD0]))).1

/-- C4 (amended): construction hardcodes the layer-norm stability epsilon
to 1e-12 for every store and every configuration; the configured
normalization epsilon is not consulted. -/
theorem layer_norm_eps_hardcoded (p : VarStore) (config : DistilBertConfig) :
    (DistilBertEmbedding.new p config).layer_norm.eps = 1e-12 := by
  simp [DistilBertEmbedding.new]

/-- C4 counterexample: with a configuration whose normalization epsilon is
1, the constructed layer norm does not carry the configured epsilon. -/
theorem layer_norm_eps_not_from_config :
    ¬ ((DistilBertEmbedding.new store0 cfgEps1).layer_norm.eps = cfgEps1.eps) := by
  intro hcontra
  simp only [DistilBertEmbedding.new, cfgEps1] at hcontra
  norm_num at hcontra

/-- C6: the positional table is selected at construction by the
configuration flag — sinusoidal when the flag is set, the learned tensor
from the store when it is not — and the only mutator of the module
(`_set_word_embeddings`) leaves the positional table unchanged. -/
theorem position_table_choice (p : VarStore) (config : DistilBertConfig) :
    (config.sinusoidal_pos_embds = true →
      (DistilBertEmbedding.new p config).position_embeddings
        = create_sinusoidal_embeddings config)
    ∧ (config.sinusoidal_pos_embds = false →
      (DistilBertEmbedding.new p config).position_embeddings
        = { ws := p.position_embeddings, padding_idx := 0 })
    ∧ ∀ e : Embedding,
        ((DistilBertEmbedding.new p config)._set_word_embeddings e).position_embeddings
          = (DistilBertEmbedding.new p config).position_embeddings := by
  refine ⟨fun h => ?_, fun h => ?_, fun e => rfl⟩
  · simp [DistilBertEmbedding.new, h]
  · simp [DistilBertEmbedding.new, h]

/-- Instance of `position_table_choice` on a sinusoidal configuration. -/
theorem position_table_choice_witness :
    (DistilBertEmbedding.new store0 cfg2).position_embeddings
      = create_sinusoidal_embeddings cfg2 :=
  (position_table_choice store0 cfg2).1 rfl

/-- C10: the word-embedding setter replaces exactly the word-embedding
table and leaves the positional table, the layer norm and the dropout
configuration untouched. -/
theorem set_word_embeddings_frame (self : DistilBertEmbedding) (e : Embedding) :
    (self._set_word_embeddings e).word_embeddings = e
    ∧ (self._set_word_embeddings e).position_embeddings = self.position_embeddings
    ∧ (self._set_word_embeddings e).layer_norm = self.layer_norm
    ∧ (self._set_word_embeddings e).dropout = self.dropout :=
  ⟨rfl, rfl, rfl, rfl⟩

/-- The last element with default of a nonempty list is a member. -/
theorem getLastD_mem_of_ne_nil {α : Type _} (l : List α) (d : α) (h : l ≠ []) :
    l.getLastD d ∈ l := by
  cases l with
  | nil => exact absurd rfl h
  | cons x xs =>
    rw [List.getLastD_cons]
    exact List.getLastD_mem_cons xs x

/-- C5: the position-id matrix has one row per batch row, every row is
the sequence `0, 1, ..., L-1` (so there is no per-example offset), and
that sequence has value `i` at index `i`. -/
theorem position_ids_spec (input : List (List Nat)) (L : Nat)
    (hrect : ∀ row ∈ input, row.length = L) :
    (positionIds input).length = input.length
    ∧ (∀ r ∈ positionIds input, r = List.range L)
    ∧ ∀ i : Nat, i < L → (List.range L).getD i 0 = i := by
  refine ⟨by simp [positionIds, expandAs], ?_, ?_⟩
  · intro r hr
    simp only [positionIds, expandAs, arange, List.mem_map] at hr
    obtain ⟨row, hrow, rfl⟩ := hr
    have hne : input ≠ [] := by
      intro hnil
      rw [hnil] at hrow
      exact (List.not_mem_nil row) hrow
    have hmem : input.getLastD [] ∈ input := getLastD_mem_of_ne_nil input [] hne
    rw [hrect _ hmem]
  · intro i hi
    have hl : i < (List.range L).length := by simpa using hi
    rw [List.getD_eq_getElem _ _ hl, List.getElem_range]

/-- Instance of `position_ids_spec` on a 2×2 batch. -/
theorem position_ids_spec_witness :
    (positionIds [[5, 6], [7, 8]]).length = 2
    ∧ (∀ r ∈ positionIds [[5, 6], [7, 8]], r = List.range 2)
    ∧ ∀ i : Nat, i < 2 → (List.range 2).getD i 0 = i := by
  have h := position_ids_spec [[5, 6], [7, 8]] 2 (by decide)
  simpa using h

/-- C7: in inference mode the dropout step is the identity, and the
forward pass does not depend on the dropout keep-mask, so two runs on the
same input agree. -/
theorem forward_inference_deterministic (m : DistilBertEmbedding)
    (input : List (List Nat)) (mask1 mask2 : Nat → Nat → Nat → Bool) :
    (∀ (d : Dropout) (mk : Nat → Bool) (v : List ℝ), d.apply_t mk false v = v)
    ∧ m.forward_t input false mask1 = m.forward_t input false mask2 :=
  ⟨fun _ _ _ => rfl, rfl⟩

/-- C3: `predict` returns exactly one answer list per input, and the
answer list at index `i` is the one computed for the input at index `i`,
for batches of every size. -/
theorem predict_index_aligned (answer_fn : QaInput → Nat → Nat → List Answer)
    (inputs : List QaInput) (top_k : Nat) (max_answer_length : Nat) :
    (predict answer_fn inputs top_k max_answer_length).length = inputs.length
    ∧ ∀ i : Nat, i < inputs.length →
        (predict answer_fn inputs top_k max_answer_length).getD i []
          = answer_fn (inputs.getD i { question := "", context := "" })
              top_k max_answer_length := by
  refine ⟨by simp [predict], ?_⟩
  intro i hi
  have h1 : i < (predict answer_fn inputs top_k max_answer_length).length := by
    simpa [predict] using hi
  rw [List.getD_eq_getElem _ _ h1, List.getD_eq_getElem _ _ hi]
  simp [predict]

/-- Instance of `predict_index_aligned` on the two-input batch of the
question-answering example. -/
theorem predict_index_aligned_witness :
    (predict context_answer amy_inputs 1 32).getD 1 []
      = context_answer (amy_inputs.getD 1 { question := "", context := "" }) 1 32 :=
  (predict_index_aligned context_answer amy_inputs 1 32).2 1 (by norm_num [amy_inputs])

/-- Indexing a mapped list by `getD` at an in-range index. -/
theorem getD_map_getD {α β : Type _} (d0 : α) (d : β) (l : List α) (f : α → β) (i : Nat)
    (h : i < l.length) : (l.map f).getD i d = f (l.getD i d0) := by
  rw [List.getD_eq_getElem l d0 h]
  have hl : i < (l.map f).length := by simpa using h
  rw [List.getD_eq_getElem _ _ hl, List.getElem_map]

/-- Indexing an index-mapped list by `getD` at an in-range index. -/
theorem getD_mapIdx_getD {α β : Type _} (d0 : α) (d : β) (l : List α) (f : Nat → α → β)
    (i : Nat) (h : i < l.length) :
    (l.mapIdx f).getD i d = f i (l.getD i d0) := by
  rw [List.getD_eq_getElem l d0 h]
  have hl : i < (l.mapIdx f).length := by simpa [List.length_mapIdx] using h
  rw [List.getD_eq_getElem _ _ hl]
  have h2 := List.get_mapIdx l f i h
  simp only [List.get_eq_getElem] at h2
  exact h2

/-- Indexing a zipped list by `getD` at an in-range index. -/
theorem getD_zipWith_getD {α β γ : Type _} (d1 : α) (d2 : β) (d : γ) (f : α → β → γ)
    (l1 : List α) (l2 : List β) (i : Nat) (h1 : i < l1.length) (h2 : i < l2.length) :
    (List.zipWith f l1 l2).getD i d = f (l1.getD i d1) (l2.getD i d2) := by
  rw [List.getD_eq_getElem l1 d1 h1, List.getD_eq_getElem l2 d2 h2]
  have hl : i < (List.zipWith f l1 l2).length := by
    rw [List.length_zipWith]
    exact lt_min h1 h2
  rw [List.getD_eq_getElem _ _ hl]
  exact List.getElem_zipWith

/-- The list `List.range n` holds `i` at index `i`. -/
theorem getD_range (n i : Nat) (h : i < n) : (List.range n).getD i 0 = i := by
  have hl : i < (List.range n).length := by simpa using h
  rw [List.getD_eq_getElem _ _ hl, List.getElem_range]

/-- A lookup at an in-range index in a table with rows of width `D` has
length `D`. -/
theorem lookup_length (e : Embedding) (D id : Nat) (hid : id < e.ws.length)
    (hrows : ∀ row ∈ e.ws, row.length = D) : (e.lookup id).length = D := by
  simp only [Embedding.lookup]
  rw [List.getD_eq_getElem _ _ hid]
  exact hrows _ (List.getElem_mem hid)

/-- Layer normalization preserves vector length. -/
theorem layer_norm_apply_length (ln : LayerNorm) (v : List ℝ) :
    (ln.apply v).length = v.length := by
  simp [LayerNorm.apply]

/-- Dropout preserves vector length in both modes. -/
theorem dropout_apply_length (d : Dropout) (mk : Nat → Bool) (train : Bool) (v : List ℝ) :
    (d.apply_t mk train v).length = v.length := by
  cases train <;> simp [Dropout.apply_t, List.length_mapIdx]

/-- C2: the forward pass returns one row per batch row, each row holding
one vector of width `D` per sequence position, and the vector at batch
row `b`, position `t` is exactly dropout of the layer-normalized
elementwise sum of the word embedding of token `input[b][t]` and the
positional embedding of position `t`. -/
theorem forward_shape_and_composition (m : DistilBertEmbedding)
    (input : List (List Nat)) (L D : Nat) (train : Bool) (mask : Nat → Nat → Nat → Bool)
    (hrect : ∀ row ∈ input, row.length = L)
    (hvalid : ∀ row ∈ input, ∀ id ∈ row, id < m.word_embeddings.ws.length)
    (hword : ∀ row ∈ m.word_embeddings.ws, row.length = D)
    (hposlen : L ≤ m.position_embeddings.ws.length)
    (hposrow : ∀ row ∈ m.position_embeddings.ws, row.length = D) :
    (m.forward_t input train mask).length = input.length
    ∧ ∀ b : Nat, b < input.length →
        ((m.forward_t input train mask).getD b []).length = L
        ∧ ∀ t : Nat, t < L →
            ((((m.forward_t input train mask).getD b []).getD t []).length = D
            ∧ ((m.forward_t input train mask).getD b []).getD t []
              = m.dropout.apply_t (mask b t) train
                  (m.layer_norm.apply
                    (List.zipWith (· + ·)
                      (m.word_embeddings.lookup ((input.getD b []).getD t 0))
                      (m.position_embeddings.lookup t)))) := by
  constructor
  · simp [DistilBertEmbedding.forward_t, positionIds, expandAs, arange,
      List.length_mapIdx, List.length_zipWith]
  · intro b hb
    have hne : input ≠ [] := by
      intro hnil
      rw [hnil] at hb
      simp at hb
    have hlast : (input.getLastD []).length = L :=
      hrect _ (getLastD_mem_of_ne_nil input [] hne)
    have hmemb : input.getD b [] ∈ input := by
      rw [List.getD_eq_getElem _ _ hb]
      exact List.getElem_mem hb
    have hgd : (input.getD b []).length = L := hrect _ hmemb
    have hbl : (input[b]).length = L := hrect _ (List.getElem_mem hb)
    have hlast2 : (input.getLast?.getD ([] : List Nat)).length = L := by
      rw [← List.getLastD_eq_getLast?]
      exact hlast
    constructor
    · simp [DistilBertEmbedding.forward_t, positionIds, expandAs, arange,
        getD_mapIdx_getD ([] : List (List ℝ)), getD_map_getD ([] : List (List ℝ)),
        getD_map_getD ([] : List Nat),
        getD_zipWith_getD ([] : List (List ℝ)) ([] : List (List ℝ)),
        List.length_mapIdx, List.length_zipWith, hb, hgd, hlast, hbl, hlast2]
    · intro t ht
      have htb2 : t < (input[b]).length := by
        rw [hbl]
        exact ht
      have hid2 : (input[b])[t] < m.word_embeddings.ws.length :=
        hvalid _ (List.getElem_mem hb) _ (List.getElem_mem htb2)
      have hwl2 : (m.word_embeddings.lookup ((input[b])[t])).length = D :=
        lookup_length _ _ _ hid2 hword
      have htpos : t < m.position_embeddings.ws.length := lt_of_lt_of_le ht hposlen
      have hpl : (m.position_embeddings.lookup t).length = D :=
        lookup_length _ _ _ htpos hposrow
      constructor
      · simp [DistilBertEmbedding.forward_t, positionIds, expandAs, arange,
          getD_mapIdx_getD ([] : List (List ℝ)), getD_mapIdx_getD ([] : List ℝ),
          getD_map_getD ([] : List (List ℝ)), getD_map_getD ([] : List Nat),
          getD_map_getD (0 : Nat),
          getD_zipWith_getD ([] : List (List ℝ)) ([] : List (List ℝ)),
          getD_range, dropout_apply_length, layer_norm_apply_length,
          List.getElem?_eq_getElem, List.length_mapIdx, List.length_zipWith,
          hb, ht, hgd, hlast, hbl, hlast2, htb2, hwl2, hpl]
      · simp [DistilBertEmbedding.forward_t, positionIds, expandAs, arange,
          getD_mapIdx_getD ([] : List (List ℝ)), getD_mapIdx_getD ([] : List ℝ),
          getD_map_getD ([] : List (List ℝ)), getD_map_getD ([] : List Nat),
          getD_map_getD (0 : Nat),
          getD_zipWith_getD ([] : List (List ℝ)) ([] : List (List ℝ)),
          getD_range, List.getElem?_eq_getElem, List.length_mapIdx,
          List.length_zipWith, hb, ht, hgd, hlast, hbl, hlast2, htb2]

/-- Instance of `forward_shape_and_composition` on a 1×2 batch over a
concrete module. -/
theorem forward_shape_and_composition_witness :
    (m0.forward_t [[0, 1]] false (fun _ _ _ => true)).length = 1 := by
  have h := forward_shape_and_composition m0 [[0, 1]] 2 2 false (fun _ _ _ => true)
    (by decide) (by norm_num [m0]) (by norm_num [m0]) (by norm_num [m0])
    (by norm_num [m0])
  simpa using h.1

end RustBert
